import Mathlib

/-!
# arpscanf: a shallow embedding of `arpscanf.c`

The C program sends one ARP request per address of a subnet and prints the
replies it reads back.  Machine integers are natural numbers reduced modulo
`2 ^ 32`; memory buffers are lists of bytes; the operating system (send
results, readiness waits, the socket's receive queue) is an explicit script.
-/

namespace Arpscanf

/-! ## Constants of the source -/

/-- The constant `BUFFER_SIZE` (`#define BUFFER_SIZE 42`). -/
def BUFFER_SIZE : Nat := 42

/-- The constant `ARP_REQUEST` (`#define ARP_REQUEST 1`). -/
def ARP_REQUEST : Nat := 1

/-- The constant `ARP_REPLY` (`#define ARP_REPLY 2`). -/
def ARP_REPLY : Nat := 2

/-- The constant `BATCH_SIZE` (`#define BATCH_SIZE 256`). -/
def BATCH_SIZE : Nat := 256

/-- Linux `ETH_P_ARP`. -/
def ETH_P_ARP : Nat := 0x0806

/-- Linux `ETH_P_IP`. -/
def ETH_P_IP : Nat := 0x0800

/-- The size `sizeof(struct ether_header)`: two hardware addresses and a 16-bit type. -/
def ETHER_HDR_LEN : Nat := 14

/-! ## 32-bit unsigned arithmetic -/

/-- Left shift of an `unsigned int`: the bits shifted past bit 31 are lost. -/
def shl32 (x s : Nat) : Nat := (x <<< s) % 2 ^ 32

/-- Bitwise complement `~x` of an `unsigned int`. -/
def not32 (x : Nat) : Nat := 0xFFFFFFFF - x % 2 ^ 32

/-- Addition of `unsigned int`s wraps modulo `2 ^ 32`. -/
def add32 (x y : Nat) : Nat := (x + y) % 2 ^ 32

/-- Subtraction of `unsigned int`s wraps modulo `2 ^ 32`. -/
def sub32 (x y : Nat) : Nat := (x + 2 ^ 32 - y % 2 ^ 32) % 2 ^ 32

/-! ## The address range computed by `main` -/

/-- The expression `(0xFFFFFFFF << (32 - mask)) & 0xFFFFFFFF` of `main`. -/
def netmask (mask : Nat) : Nat := shl32 0xFFFFFFFF (32 - mask) &&& 0xFFFFFFFF

/-- Line 217: `net_addr = ip_to_int(src_ip) & ((0xFFFFFFFF << (32 - mask)) & 0xFFFFFFFF)`,
as a function of the value `b` returned by `ip_to_int`. -/
def net_addr (b mask : Nat) : Nat := b &&& netmask mask

/-- Line 218: `start_ip = net_addr + 1`. -/
def start_ip (b mask : Nat) : Nat := add32 (net_addr b mask) 1

/-- Line 219: `end_ip = net_addr | (~((0xFFFFFFFF << (32 - mask)) & 0xFFFFFFFF))`. -/
def end_ip (b mask : Nat) : Nat := net_addr b mask ||| not32 (netmask mask)

/-- The 32-bit mask with the top `n` bits set, in the words of the specification. -/
def topBitsMask (n : Nat) : Nat := 2 ^ 32 - 2 ^ (32 - n)

/-- The mask with the low `32 - n` bits set, in the words of the specification. -/
def lowBitsMask (n : Nat) : Nat := 2 ^ (32 - n) - 1

/-! ## Byte order -/

/-- The bytes in memory of `htonl(x)`: most significant byte first. -/
def htonl (x : Nat) : List Nat :=
  [x / 2 ^ 24 % 256, x / 2 ^ 16 % 256, x / 2 ^ 8 % 256, x % 256]

/-- The host value `ntohl` reads from four bytes in network order. -/
def ntohl (bs : List Nat) : Nat :=
  bs.getD 0 0 * 2 ^ 24 + bs.getD 1 0 * 2 ^ 16 + bs.getD 2 0 * 2 ^ 8 + bs.getD 3 0

/-- The bytes in memory of `htons(v)`. -/
def htons (v : Nat) : List Nat := [v / 256 % 256, v % 256]

/-- The host value `ntohs` reads from two bytes in network order. -/
def ntohs (bs : List Nat) : Nat := bs.getD 0 0 * 256 + bs.getD 1 0

/-! ## Dotted-decimal text (the C library's `inet_ntop` and `inet_pton` for `AF_INET`) -/

/-- The character of one decimal digit. -/
def decDigit (d : Nat) : Char := Char.ofNat (48 + d)

/-- One octet printed as `%u`: decimal, no leading zero. -/
def octetText (b : Nat) : List Char :=
  if b < 10 then [decDigit b]
  else if b < 100 then [decDigit (b / 10), decDigit (b % 10)]
  else [decDigit (b / 100), decDigit (b / 10 % 10), decDigit (b % 10)]

/-- The call `inet_ntop(AF_INET, bytes, ...)`: the four octets joined by dots. -/
def inet_ntop (bs : List Nat) : List Char :=
  octetText (bs.getD 0 0) ++ '.' :: octetText (bs.getD 1 0) ++ '.' ::
    octetText (bs.getD 2 0) ++ '.' :: octetText (bs.getD 3 0)

/-- The scanner state of `inet_pton`: the octets already closed by a dot, the
octet being read, whether it has a digit yet, and the number of octets begun. -/
structure PtonState where
  done : List Nat
  cur : Nat
  saw_digit : Bool
  octets : Nat
deriving DecidableEq, Repr

/-- One character of `inet_pton`: a digit extends the current octet (no leading
zero, at most 255, at most four octets), a dot after a digit closes it, anything
else is refused. -/
def ptonStep (st : PtonState) (ch : Char) : Option PtonState :=
  if 48 ≤ ch.toNat ∧ ch.toNat ≤ 57 then
    let new := st.cur * 10 + (ch.toNat - 48)
    if st.saw_digit && st.cur == 0 then none
    else if new > 255 then none
    else if !st.saw_digit then
      if st.octets + 1 > 4 then none
      else some { st with cur := new, saw_digit := true, octets := st.octets + 1 }
    else some { st with cur := new }
  else if ch = '.' ∧ st.saw_digit then
    if st.octets = 4 then none
    else some { st with done := st.done ++ [st.cur], cur := 0, saw_digit := false }
  else none

/-- The scan of `inet_pton` over the whole text. -/
def ptonRun : List Char → PtonState → Option PtonState
  | [], st => some st
  | ch :: rest, st =>
    match ptonStep st ch with
    | some st1 => ptonRun rest st1
    | none => none

/-- The call `inet_pton(AF_INET, src, dst)`: the four bytes written to `dst`, or `none`
when the text is refused (return value 0, `dst` untouched). -/
def inet_pton (src : List Char) : Option (List Nat) :=
  match ptonRun src { done := [], cur := 0, saw_digit := false, octets := 0 } with
  | some st => if st.octets < 4 then none else some (st.done ++ [st.cur])
  | none => none

/-- The function `ip_to_int`: `addr` starts at 0, `inet_pton` fills it when the text is
accepted, and the result is `ntohl(addr)`. -/
def ip_to_int (ip : List Char) : Nat :=
  match inet_pton ip with
  | some bs => ntohl bs
  | none => ntohl [0, 0, 0, 0]

/-- The function `int_to_ip`: the dotted-decimal text of `htonl(ip)`. -/
def int_to_ip (ip : Nat) : List Char := inet_ntop (htonl ip)

/-- The range `main` hands to `scan_batch`, or `none` when the prefix length is
refused by the guard of line 212. -/
def main_range (src_ip : List Char) (mask : Int) : Option (Nat × Nat) :=
  if mask < 1 ∨ mask > 32 then none
  else some (start_ip (ip_to_int src_ip) mask.toNat, end_ip (ip_to_int src_ip) mask.toNat)

/-! ## Buffers -/

/-- The call `memcpy(buf + off, src, src.length)` on a buffer held as a list of bytes. -/
def memcpy (buf : List Nat) (off : Nat) (src : List Nat) : List Nat :=
  buf.take off ++ src ++ buf.drop (off + src.length)

/-- The call `memset(buf + off, c, n)`. -/
def memset (buf : List Nat) (off c n : Nat) : List Nat :=
  memcpy buf off (List.replicate n c)

/-- The call `inet_pton(AF_INET, text, buf + off)`: four bytes are written when the text
is accepted, nothing otherwise. -/
def store_pton (buf : List Nat) (off : Nat) (text : List Char) : List Nat :=
  match inet_pton text with
  | some bs => memcpy buf off bs
  | none => buf

/-! ## Building the request frame

`struct arp_header` follows the 14-byte Ethernet header; its fields have offsets
0 (`hw_type`), 2 (`proto_type`), 4 (`hw_len`), 5 (`proto_len`), 6 (`opcode`),
8 (`src_mac`), 14 (`src_ip`), 18 (`dst_mac`), 24 (`dst_ip`), with no padding. -/

/-- The function `construct_arp_request`, one store after the other as in the source. -/
def construct_arp_request (buffer : List Nat) (src_ip dst_ip : List Char)
    (src_mac : List Nat) : List Nat :=
  let b1 := memset buffer 0 0xFF 6
  let b2 := memcpy b1 6 (src_mac.take 6)
  let b3 := memcpy b2 12 (htons ETH_P_ARP)
  let b4 := memcpy b3 (ETHER_HDR_LEN + 0) (htons 1)
  let b5 := memcpy b4 (ETHER_HDR_LEN + 2) (htons ETH_P_IP)
  let b6 := memcpy b5 (ETHER_HDR_LEN + 4) [6]
  let b7 := memcpy b6 (ETHER_HDR_LEN + 5) [4]
  let b8 := memcpy b7 (ETHER_HDR_LEN + 6) (htons ARP_REQUEST)
  let b9 := memcpy b8 (ETHER_HDR_LEN + 8) (src_mac.take 6)
  let b10 := store_pton b9 (ETHER_HDR_LEN + 14) src_ip
  let b11 := memset b10 (ETHER_HDR_LEN + 18) 0 6
  store_pton b11 (ETHER_HDR_LEN + 24) dst_ip

/-- The buffer handed to `sendto` for target `ip` (lines 155 to 159): zeroed,
then filled by `construct_arp_request`. -/
def request_frame (buffer : List Nat) (src_ip : List Char) (src_mac : List Nat)
    (ip : Nat) : List Nat :=
  construct_arp_request (memset buffer 0 0 BUFFER_SIZE) src_ip (int_to_ip ip) src_mac

/-! ## Printing a reply -/

/-- One lowercase hexadecimal digit. -/
def hexDigit (d : Nat) : Char :=
  if d < 10 then Char.ofNat (48 + d) else Char.ofNat (87 + d)

/-- One byte printed as `%02x`. -/
def hex2 (b : Nat) : List Char := [hexDigit (b / 16 % 16), hexDigit (b % 16)]

/-- The function `print_mac`: `mac[0]` to `mac[5]` as `%02x`, joined by colons. -/
def print_mac (mac : List Nat) : List Char :=
  hex2 (mac.getD 0 0) ++ ':' :: hex2 (mac.getD 1 0) ++ ':' :: hex2 (mac.getD 2 0) ++ ':' ::
    hex2 (mac.getD 3 0) ++ ':' :: hex2 (mac.getD 4 0) ++ ':' :: hex2 (mac.getD 5 0)

/-- The text of lines 189 to 191 for the fields `src_ip` and `src_mac` of a reply. -/
def reply_line (ip_bytes mac : List Nat) : List Char :=
  "IP: ".toList ++ inet_ntop ip_bytes ++ ", MAC: ".toList ++ print_mac mac ++ ['\n']

/-! ## What the program does, as a trace -/

/-- The calls and outputs of `scan_batch` that the claims speak about. -/
inductive Event where
  /-- A call of `sendto` on the given 42 bytes, with its return value. -/
  | sendto (frame : List Nat) (res : Int)
  /-- The call `perror("Failed to send ARP request")`. -/
  | perror_send
  /-- The call `delay_ms(ms)`. -/
  | delay_ms (ms : Nat)
  /-- A call of `epoll_wait`, with its return value. -/
  | epoll_wait (n : Int)
  /-- The call `perror("epoll_wait failed")`. -/
  | perror_wait
  /-- A call of `recvfrom`, with its return value. -/
  | recvfrom (len : Int)
  /-- The line printed for a reply. -/
  | print (line : List Char)
deriving DecidableEq, Repr

/-- The number of `sendto` calls in a trace. -/
def sendCount : List Event → Nat
  | [] => 0
  | Event.sendto _ _ :: t => sendCount t + 1
  | _ :: t => sendCount t

/-- The number of pauses (`delay_ms`) in a trace. -/
def pauseCount : List Event → Nat
  | [] => 0
  | Event.delay_ms _ :: t => pauseCount t + 1
  | _ :: t => pauseCount t

/-- The number of `epoll_wait` calls in a trace. -/
def waitCount : List Event → Nat
  | [] => 0
  | Event.epoll_wait _ :: t => waitCount t + 1
  | _ :: t => waitCount t

/-- The number of `recvfrom` calls in a trace. -/
def recvCount : List Event → Nat
  | [] => 0
  | Event.recvfrom _ :: t => recvCount t + 1
  | _ :: t => recvCount t

/-- The number of reply lines printed in a trace. -/
def printCount : List Event → Nat
  | [] => 0
  | Event.print _ :: t => printCount t + 1
  | _ :: t => printCount t

/-! ## The send loop of `scan_batch` (lines 154 to 169) -/

/-- The variables of the send loop: the counter `ip`, the shared `buffer`, the
number of `sendto` calls made so far, and the trace. -/
structure SendState where
  ip : Nat
  buffer : List Nat
  calls : Nat
  trace : List Event
deriving DecidableEq, Repr

/-- One iteration of the loop body followed by `ip++`.  `sendto_res i` is the
value the `i`-th call of `sendto` returns. -/
def send_iter (src_ip : List Char) (src_mac : List Nat) (sendto_res : Nat → Int)
    (start_ip : Nat) (s : SendState) : SendState :=
  let buffer := request_frame s.buffer src_ip src_mac s.ip
  let r := sendto_res s.calls
  let t1 := s.trace ++ [Event.sendto (buffer.take BUFFER_SIZE) r]
  let t2 := if r < 0 then t1 ++ [Event.perror_send] else t1
  let t3 := if sub32 s.ip start_ip % BATCH_SIZE = 0 then t2 ++ [Event.delay_ms 10] else t2
  { ip := add32 s.ip 1, buffer := buffer, calls := s.calls + 1, trace := t3 }

/-- The loop `for (ip = start_ip; ip <= end_ip; ip++)`, run for at most `fuel`
iterations: `some` final state when the loop condition has become false,
`none` when the loop is still running after `fuel` iterations. -/
def send_loop (src_ip : List Char) (src_mac : List Nat) (sendto_res : Nat → Int)
    (start_ip end_ip : Nat) : Nat → SendState → Option SendState
  | 0, s => if s.ip ≤ end_ip then none else some s
  | fuel + 1, s =>
    if s.ip ≤ end_ip then
      send_loop src_ip src_mac sendto_res start_ip end_ip fuel
        (send_iter src_ip src_mac sendto_res start_ip s)
    else some s

/-- The state in which the send loop starts: `ip = start_ip`, nothing done yet. -/
def send_init (buffer : List Nat) (start_ip : Nat) : SendState :=
  { ip := start_ip, buffer := buffer, calls := 0, trace := [] }

/-- The events of the iteration with index `j` (counted from 0) of a range that
starts at `start_ip`: the send, the error message when it failed, the pause. -/
def iter_events (src_ip : List Char) (src_mac : List Nat) (sendto_res : Nat → Int)
    (start_ip j : Nat) : List Event :=
  [Event.sendto (request_frame (List.replicate BUFFER_SIZE 0) src_ip src_mac (start_ip + j))
      (sendto_res j)]
    ++ (if sendto_res j < 0 then [Event.perror_send] else [])
    ++ (if j % BATCH_SIZE = 0 then [Event.delay_ms 10] else [])

/-! ## The reply loop of `scan_batch` (lines 172 to 196) -/

/-- The state of the reply loop: the shared `buffer`, the frames pending in the
socket's receive queue, and the trace. -/
structure RecvState where
  buffer : List Nat
  queue : List (List Nat)
  trace : List Event
deriving DecidableEq, Repr

/-- The field `opcode` of the ARP header overlaid on the buffer, in host order. -/
def arp_opcode (buffer : List Nat) : Nat :=
  ntohs ((buffer.drop (ETHER_HDR_LEN + 6)).take 2)

/-- The test of line 186 and the two fields handed to the printing calls:
`(src_ip, src_mac)` when the opcode is `ARP_REPLY`, nothing otherwise. -/
def decode_reply (buffer : List Nat) : Option (List Nat × List Nat) :=
  if arp_opcode buffer = ARP_REPLY then
    some ((buffer.drop (ETHER_HDR_LEN + 14)).take 4, (buffer.drop (ETHER_HDR_LEN + 8)).take 6)
  else none

/-- Lines 184 to 193: what follows a `recvfrom` that returned `len` with the
buffer as given. -/
def handle_received (len : Int) (buffer : List Nat) : List Event :=
  if len > 0 then
    match decode_reply buffer with
    | some (ip_bytes, mac) => [Event.print (reply_line ip_bytes mac)]
    | none => []
  else []

/-- Lines 183 to 193 when the socket delivers the datagram `frame`: at most
`sizeof(buffer)` bytes are copied to the start of the buffer, the rest of the
buffer keeps what it held, and the return value is the number of bytes copied. -/
def recv_frame (buffer frame : List Nat) : List Nat × List Event :=
  let data := frame.take BUFFER_SIZE
  let buffer1 := memcpy buffer 0 data
  (buffer1, Event.recvfrom data.length :: handle_received data.length buffer1)

/-- Lines 183 to 193 on the non-blocking socket: the first pending frame is
delivered, or the call fails with -1 when none is pending. -/
def recv_step (s : RecvState) : RecvState :=
  match s.queue with
  | [] => { s with trace := s.trace ++ (Event.recvfrom (-1) :: handle_received (-1) s.buffer) }
  | frame :: rest =>
    { buffer := (recv_frame s.buffer frame).1, queue := rest,
      trace := s.trace ++ (recv_frame s.buffer frame).2 }

/-- The loop `for (i = 0; i < n; i++)` of line 181, with `remaining = n - i`;
`epollin i` tells whether `events[i].events & EPOLLIN` is set.  The socket is
the only descriptor registered, so `events[i].data.fd` is the socket. -/
def for_events (epollin : Nat → Bool) : Nat → Nat → RecvState → RecvState
  | 0, _, s => s
  | remaining + 1, i, s =>
    for_events epollin remaining (i + 1) (if epollin i then recv_step s else s)

/-- One return of `epoll_wait`: the frames that reached the socket while the
call waited, the return value, and the `EPOLLIN` flags of the events. -/
structure Wait where
  arrived : List (List Nat)
  n : Int
  epollin : Nat → Bool

/-- The loop `while (1)` of line 172 against a script of `epoll_wait` returns:
`some` of the final state and the unused rest of the script when the loop has
left through a `break`, `none` when it is still running at the end of the script. -/
def reply_loop : List Wait → RecvState → Option (RecvState × List Wait)
  | [], _ => none
  | w :: rest, s =>
    let s1 : RecvState :=
      { s with queue := s.queue ++ w.arrived, trace := s.trace ++ [Event.epoll_wait w.n] }
    if w.n < 0 then some ({ s1 with trace := s1.trace ++ [Event.perror_wait] }, rest)
    else if w.n = 0 then some (s1, rest)
    else reply_loop rest (for_events w.epollin w.n.toNat 0 s1)

/-- The number of indices `i < n` whose event has `EPOLLIN` set. -/
def epollinCount (epollin : Nat → Bool) : Nat → Nat
  | 0 => 0
  | n + 1 => epollinCount epollin n + (if epollin n then 1 else 0)

/-- A reply frame made from a request frame as the specification words it:
opcode set to reply, sender hardware address `h`, sender address `addr`. -/
def reply_of_request (request : List Nat) (addr : Nat) (h : List Nat) : List Nat :=
  memcpy (memcpy (memcpy request 20 (htons ARP_REPLY)) 22 h) 28 (htonl addr)

/-- The invariant of the scanner of `inet_pton`: the closed octets and the one
being read add up to the octets begun, of which there are at most four. -/
def PtonInv (st : PtonState) : Prop :=
  st.done.length + (if st.saw_digit then 1 else 0) = st.octets ∧
    (st.saw_digit = false → st.octets ≤ 3) ∧ st.octets ≤ 4

/-! ## Lemmas on the range -/

theorem netmask_eq (n : Nat) (h1 : 1 ≤ n) (h2 : n ≤ 32) : netmask n = topBitsMask n := by
  unfold netmask topBitsMask shl32
  interval_cases n <;> rfl

theorem not32_netmask (n : Nat) (h1 : 1 ≤ n) (h2 : n ≤ 32) :
    not32 (netmask n) = lowBitsMask n := by
  unfold netmask lowBitsMask shl32 not32
  interval_cases n <;> rfl

theorem testBit_topBitsMask (k i : Nat) (hk : k ≤ 32) :
    (2 ^ 32 - 2 ^ k).testBit i = (decide (k ≤ i) && decide (i < 32)) := by
  have h : 2 ^ 32 - 2 ^ k = 2 ^ k * (2 ^ (32 - k) - 1) := by
    rw [Nat.mul_sub, ← pow_add]
    have : k + (32 - k) = 32 := by omega
    rw [this]; simp
  rw [h, Nat.testBit_mul_pow_two, Nat.testBit_two_pow_sub_one]
  by_cases hik : k ≤ i
  · simp [hik]; omega
  · simp [hik]

theorem and_topBitsMask (b k : Nat) (hb : b < 2 ^ 32) (hk : k ≤ 32) :
    b &&& (2 ^ 32 - 2 ^ k) = 2 ^ k * (b / 2 ^ k) := by
  apply Nat.eq_of_testBit_eq
  intro i
  rw [Nat.testBit_and, testBit_topBitsMask k i hk, Nat.testBit_mul_pow_two]
  by_cases hki : k ≤ i
  · simp only [hki, decide_True, Bool.true_and, ge_iff_le]
    rw [← Nat.shiftRight_eq_div_pow, Nat.testBit_shiftRight]
    have e : k + (i - k) = i := by omega
    rw [e]
    by_cases h32 : i < 32
    · simp [h32]
    · have : b.testBit i = false := by
        apply Nat.testBit_lt_two_pow
        exact lt_of_lt_of_le hb (Nat.pow_le_pow_right (by decide) (by omega))
      simp [this]
  · simp [hki]

theorem net_addr_eq (b n : Nat) (hb : b < 2 ^ 32) (h1 : 1 ≤ n) (h2 : n ≤ 32) :
    net_addr b n = 2 ^ (32 - n) * (b / 2 ^ (32 - n)) := by
  unfold net_addr
  rw [netmask_eq n h1 h2]
  exact and_topBitsMask b (32 - n) hb (by omega)

theorem end_ip_eq (b n : Nat) (hb : b < 2 ^ 32) (h1 : 1 ≤ n) (h2 : n ≤ 32) :
    end_ip b n = 2 ^ (32 - n) * (b / 2 ^ (32 - n)) + (2 ^ (32 - n) - 1) := by
  unfold end_ip
  rw [not32_netmask n h1 h2, net_addr_eq b n hb h1 h2]
  unfold lowBitsMask
  have hpos : 0 < 2 ^ (32 - n) := Nat.two_pow_pos _
  exact (Nat.mul_add_lt_is_or (by omega) _).symm

theorem end_ip_lt (b n : Nat) (hb : b < 2 ^ 32) (h1 : 1 ≤ n) (h2 : n ≤ 32) :
    end_ip b n < 2 ^ 32 := by
  rw [end_ip_eq b n hb h1 h2]
  interval_cases n <;> omega

theorem start_ip_eq (b n : Nat) (hb : b < 2 ^ 32) (h1 : 1 ≤ n) (h2 : n ≤ 31) :
    start_ip b n = 2 ^ (32 - n) * (b / 2 ^ (32 - n)) + 1 := by
  unfold start_ip add32
  rw [net_addr_eq b n hb h1 (by omega)]
  interval_cases n <;> omega

/-! ## Lemmas on the dotted-decimal text -/

theorem decDigit_toNat (d : Nat) (hd : d < 10) : (decDigit d).toNat = 48 + d := by
  interval_cases d <;> rfl

theorem decDigit_ne_dot (d : Nat) (hd : d < 10) : decDigit d ≠ '.' := by
  interval_cases d <;> decide

theorem ptonStep_first_digit (done : List Nat) (k d : Nat) (hk : k < 4) (hd : d < 10) :
    ptonStep { done := done, cur := 0, saw_digit := false, octets := k } (decDigit d)
      = some { done := done, cur := d, saw_digit := true, octets := k + 1 } := by
  have h := decDigit_toNat d hd
  simp only [ptonStep, h]
  have a : 48 ≤ 48 + d ∧ 48 + d ≤ 57 := by omega
  have b : ¬ (0 * 10 + (48 + d - 48) > 255) := by omega
  have c : ¬ (k + 1 > 4) := by omega
  have e : 0 * 10 + (48 + d - 48) = d := by omega
  simp [a, c]
  omega

theorem ptonStep_next_digit (done : List Nat) (k c d : Nat) (hc : 0 < c) (hd : d < 10)
    (hn : c * 10 + d ≤ 255) :
    ptonStep { done := done, cur := c, saw_digit := true, octets := k } (decDigit d)
      = some { done := done, cur := c * 10 + d, saw_digit := true, octets := k } := by
  have h := decDigit_toNat d hd
  simp only [ptonStep, h]
  have a : 48 ≤ 48 + d ∧ 48 + d ≤ 57 := by omega
  have b : ¬ (c * 10 + (48 + d - 48) > 255) := by omega
  have e : c * 10 + (48 + d - 48) = c * 10 + d := by omega
  have f : c ≠ 0 := by omega
  simp [a, f]
  omega

theorem ptonStep_dot (done : List Nat) (k c : Nat) (hk : k < 4) :
    ptonStep { done := done, cur := c, saw_digit := true, octets := k } '.'
      = some { done := done ++ [c], cur := 0, saw_digit := false, octets := k } := by
  have a : ¬ (48 ≤ ('.' : Char).toNat ∧ ('.' : Char).toNat ≤ 57) := by decide
  have b : k ≠ 4 := by omega
  simp [ptonStep, a, b]

/-- Scanning the text of one octet from the start of an octet reads that octet. -/
theorem ptonRun_octet (b : Nat) (hb : b < 256) (done : List Nat) (k : Nat) (hk : k < 4)
    (rest : List Char) :
    ptonRun (octetText b ++ rest) { done := done, cur := 0, saw_digit := false, octets := k }
      = ptonRun rest { done := done, cur := b, saw_digit := true, octets := k + 1 } := by
  unfold octetText
  by_cases h10 : b < 10
  · simp only [h10, if_true, List.cons_append, List.nil_append, ptonRun,
      ptonStep_first_digit done k b hk h10]
  · by_cases h100 : b < 100
    · simp only [h10, h100, if_true, if_false, List.cons_append, List.nil_append, ptonRun,
        ptonStep_first_digit done k (b / 10) hk (by omega),
        ptonStep_next_digit done (k + 1) (b / 10) (b % 10) (by omega) (by omega) (by omega)]
      have e : b / 10 * 10 + b % 10 = b := by omega
      rw [e]
    · simp only [h10, h100, if_false, List.cons_append, List.nil_append, ptonRun,
        ptonStep_first_digit done k (b / 100) hk (by omega),
        ptonStep_next_digit done (k + 1) (b / 100) (b / 10 % 10) (by omega) (by omega) (by omega),
        ptonStep_next_digit done (k + 1) (b / 100 * 10 + b / 10 % 10) (b % 10) (by omega)
          (by omega) (by omega)]
      have e : (b / 100 * 10 + b / 10 % 10) * 10 + b % 10 = b := by omega
      rw [e]

/-- The text `inet_ntop` prints for four octets is read back by `inet_pton`. -/
theorem inet_pton_inet_ntop (a b c d : Nat) (ha : a < 256) (hb : b < 256) (hc : c < 256)
    (hd : d < 256) : inet_pton (inet_ntop [a, b, c, d]) = some [a, b, c, d] := by
  unfold inet_pton inet_ntop
  simp only [List.getD_cons_zero, List.getD_cons_succ, List.append_assoc, List.cons_append]
  rw [ptonRun_octet a ha [] 0 (by omega)]
  simp only [ptonRun, ptonStep_dot [] 1 a (by omega), List.nil_append]
  rw [ptonRun_octet b hb [a] 1 (by omega)]
  simp only [ptonRun, ptonStep_dot [a] 2 b (by omega), List.cons_append, List.nil_append]
  rw [ptonRun_octet c hc [a, b] 2 (by omega)]
  simp only [ptonRun, ptonStep_dot [a, b] 3 c (by omega), List.cons_append, List.nil_append]
  have h := ptonRun_octet d hd [a, b, c] 3 (by omega) []
  rw [List.append_nil] at h
  rw [h]
  simp [ptonRun]

theorem inet_pton_int_to_ip (x : Nat) : inet_pton (int_to_ip x) = some (htonl x) := by
  unfold int_to_ip htonl
  exact inet_pton_inet_ntop _ _ _ _ (Nat.mod_lt _ (by decide)) (Nat.mod_lt _ (by decide))
    (Nat.mod_lt _ (by decide)) (Nat.mod_lt _ (by decide))

theorem ntohl_htonl (x : Nat) (hx : x < 2 ^ 32) : ntohl (htonl x) = x := by
  simp only [ntohl, htonl, List.getD_cons_zero, List.getD_cons_succ]
  omega

theorem ptonStep_inv (st st1 : PtonState) (ch : Char) (h : ptonStep st ch = some st1)
    (hi : PtonInv st) : PtonInv st1 := by
  obtain ⟨h1, h2, h3⟩ := hi
  simp only [ptonStep] at h
  by_cases hd : 48 ≤ ch.toNat ∧ ch.toNat ≤ 57
  · rw [if_pos hd] at h
    cases hs : st.saw_digit with
    | false =>
      simp only [hs, Bool.false_and, Bool.false_eq_true, if_false, Bool.not_false, if_true] at h
      split at h
      · cases h
      · split at h
        · cases h
        · cases h
          simp only [PtonInv, hs] at h1 ⊢
          simp at h1 ⊢
          omega
    | true =>
      simp only [hs, Bool.true_and, Bool.not_true, Bool.false_eq_true, if_false] at h
      split at h
      · cases h
      · split at h
        · cases h
        · cases h
          simp only [PtonInv, hs] at h1 ⊢
          simp at h1 ⊢
          omega
  · rw [if_neg hd] at h
    split at h
    · rename_i hdot
      split at h
      · cases h
      · cases h
        simp only [PtonInv, hdot.2] at h1 ⊢
        simp at h1 ⊢
        omega
    · cases h

theorem ptonRun_inv (text : List Char) (st st1 : PtonState) (h : ptonRun text st = some st1)
    (hi : PtonInv st) : PtonInv st1 := by
  induction text generalizing st with
  | nil =>
    simp only [ptonRun, Option.some.injEq] at h
    exact h ▸ hi
  | cons ch rest ih =>
    simp only [ptonRun] at h
    cases hs : ptonStep st ch with
    | none => simp [hs] at h
    | some st2 =>
      simp only [hs] at h
      exact ih st2 h (ptonStep_inv st st2 ch hs hi)

/-- Whatever the text, `inet_pton` writes four bytes or nothing. -/
theorem inet_pton_length (text : List Char) (bs : List Nat) (h : inet_pton text = some bs) :
    bs.length = 4 := by
  unfold inet_pton at h
  cases hr : ptonRun text { done := [], cur := 0, saw_digit := false, octets := 0 } with
  | none => simp [hr] at h
  | some st =>
    simp only [hr] at h
    have hi : PtonInv st := ptonRun_inv text _ st hr (by simp [PtonInv])
    obtain ⟨h1, h2, h3⟩ := hi
    by_cases h4 : st.octets < 4
    · simp [h4] at h
    · simp only [h4, if_false, Option.some.injEq] at h
      subst h
      cases hs : st.saw_digit with
      | false => have := h2 hs; omega
      | true => simp [hs] at h1; simp; omega

/-! ## Lemmas on buffers and the request frame -/

theorem memcpy_length (buf : List Nat) (off : Nat) (src : List Nat)
    (h : off + src.length ≤ buf.length) : (memcpy buf off src).length = buf.length := by
  simp only [memcpy, List.length_append, List.length_take, List.length_drop]
  omega

theorem store_pton_length (buf : List Nat) (off : Nat) (text : List Char)
    (h : off + 4 ≤ buf.length) : (store_pton buf off text).length = buf.length := by
  unfold store_pton
  cases hp : inet_pton text with
  | none => rfl
  | some bs =>
    have := inet_pton_length text bs hp
    exact memcpy_length buf off bs (by omega)

theorem memset_buffer (buffer : List Nat) (h : buffer.length = BUFFER_SIZE) :
    memset buffer 0 0 BUFFER_SIZE = List.replicate BUFFER_SIZE 0 := by
  simp [memset, memcpy, List.drop_eq_nil_of_le (Nat.le_of_eq h)]

theorem request_frame_buffer (buffer : List Nat) (h : buffer.length = BUFFER_SIZE)
    (src_ip : List Char) (src_mac : List Nat) (ip : Nat) :
    request_frame buffer src_ip src_mac ip
      = request_frame (List.replicate BUFFER_SIZE 0) src_ip src_mac ip := by
  unfold request_frame
  rw [memset_buffer buffer h, memset_buffer _ (by simp)]

theorem memcpy_length_eq (buf : List Nat) (off : Nat) (src : List Nat) (n : Nat)
    (hn : buf.length = n) (h : off + src.length ≤ n) : (memcpy buf off src).length = n := by
  rw [memcpy_length buf off src (by omega), hn]

theorem store_pton_length_eq (buf : List Nat) (off : Nat) (text : List Char) (n : Nat)
    (hn : buf.length = n) (h : off + 4 ≤ n) : (store_pton buf off text).length = n := by
  rw [store_pton_length buf off text (by omega), hn]

theorem construct_arp_request_length (buffer : List Nat) (h : buffer.length = BUFFER_SIZE)
    (src_ip dst_ip : List Char) (src_mac : List Nat) :
    (construct_arp_request buffer src_ip dst_ip src_mac).length = BUFFER_SIZE := by
  have hm : (src_mac.take 6).length ≤ 6 := by simp [List.length_take]
  unfold construct_arp_request
  simp only [BUFFER_SIZE, ETHER_HDR_LEN, memset, htons] at *
  apply store_pton_length_eq _ _ _ _ _ (by omega)
  apply memcpy_length_eq _ _ _ _ _ (by simp)
  apply store_pton_length_eq _ _ _ _ _ (by omega)
  apply memcpy_length_eq _ _ _ _ _ (by omega)
  apply memcpy_length_eq _ _ _ _ _ (by simp)
  apply memcpy_length_eq _ _ _ _ _ (by simp)
  apply memcpy_length_eq _ _ _ _ _ (by simp)
  apply memcpy_length_eq _ _ _ _ _ (by simp)
  apply memcpy_length_eq _ _ _ _ _ (by simp)
  apply memcpy_length_eq _ _ _ _ _ (by simp)
  apply memcpy_length_eq _ _ _ _ _ (by omega)
  apply memcpy_length_eq _ _ _ _ h (by simp)

theorem request_frame_length (buffer : List Nat) (h : buffer.length = BUFFER_SIZE)
    (src_ip : List Char) (src_mac : List Nat) (ip : Nat) :
    (request_frame buffer src_ip src_mac ip).length = BUFFER_SIZE := by
  unfold request_frame
  apply construct_arp_request_length
  rw [memset_buffer buffer h]
  simp

theorem list_length_six (l : List Nat) (h : l.length = 6) :
    ∃ a b c d e f, l = [a, b, c, d, e, f] := by
  match l, h with
  | [a, b, c, d, e, f], _ => exact ⟨a, b, c, d, e, f, rfl⟩

theorem request_frame_eq (buffer : List Nat) (src tgt : Nat) (src_mac : List Nat)
    (hbuf : buffer.length = BUFFER_SIZE) (hmac : src_mac.length = 6) :
    request_frame buffer (int_to_ip src) src_mac tgt =
      List.replicate 6 0xFF ++ src_mac ++ [0x08, 0x06] ++ [0x00, 0x01] ++ [0x08, 0x00]
        ++ [6] ++ [4] ++ [0x00, 0x01] ++ src_mac ++ htonl src ++ List.replicate 6 0
        ++ htonl tgt := by
  rw [request_frame_buffer buffer hbuf]
  obtain ⟨a, b, c, d, e, f, rfl⟩ := list_length_six src_mac hmac
  have hz : memset (List.replicate BUFFER_SIZE 0) 0 0 BUFFER_SIZE
      = [0, 0, 0, 0, 0, 0, 0, 0, 0, 0, 0, 0, 0, 0, 0, 0, 0, 0, 0, 0, 0,
         0, 0, 0, 0, 0, 0, 0, 0, 0, 0, 0, 0, 0, 0, 0, 0, 0, 0, 0, 0, 0] := by decide
  simp only [request_frame, construct_arp_request, store_pton, inet_pton_int_to_ip, hz]
  simp [memcpy, memset, htons, htonl, ETHER_HDR_LEN, ETH_P_ARP, ETH_P_IP, ARP_REQUEST,
    List.replicate]

theorem getD_take_drop (l : List Nat) (n m i : Nat) (h : i < m) :
    ((l.drop n).take m).getD i 0 = l.getD (n + i) 0 := by
  simp [List.getD_eq_getElem?_getD, List.getElem?_take, h, List.getElem?_drop]

theorem arp_opcode_eq (buffer : List Nat) :
    arp_opcode buffer = buffer.getD 20 0 * 256 + buffer.getD 21 0 := by
  unfold arp_opcode ntohs ETHER_HDR_LEN
  rw [getD_take_drop _ _ _ _ (by omega), getD_take_drop _ _ _ _ (by omega)]

theorem memcpy_whole (buffer frame : List Nat) :
    memcpy buffer 0 frame = frame ++ buffer.drop frame.length := by
  simp [memcpy]

/-! ## Lemmas on the send loop -/

theorem send_iter_ip (src_ip : List Char) (src_mac : List Nat) (res : Nat → Int)
    (start : Nat) (s : SendState) :
    (send_iter src_ip src_mac res start s).ip = add32 s.ip 1 := rfl

theorem send_iter_calls (src_ip : List Char) (src_mac : List Nat) (res : Nat → Int)
    (start : Nat) (s : SendState) :
    (send_iter src_ip src_mac res start s).calls = s.calls + 1 := rfl

theorem send_iter_buffer (src_ip : List Char) (src_mac : List Nat) (res : Nat → Int)
    (start : Nat) (s : SendState) (hb : s.buffer.length = BUFFER_SIZE) :
    (send_iter src_ip src_mac res start s).buffer.length = BUFFER_SIZE :=
  request_frame_length s.buffer hb src_ip src_mac s.ip

theorem send_iter_trace (src_ip : List Char) (src_mac : List Nat) (res : Nat → Int)
    (start : Nat) (s : SendState) (j : Nat) (hip : s.ip = start + j) (hc : s.calls = j)
    (hb : s.buffer.length = BUFFER_SIZE) (hlt : start + j < 2 ^ 32) :
    (send_iter src_ip src_mac res start s).trace
      = s.trace ++ iter_events src_ip src_mac res start j := by
  have hsub : sub32 s.ip start = j := by
    unfold sub32
    rw [hip, Nat.mod_eq_of_lt (show start < 2 ^ 32 by omega)]
    have : start + j + 2 ^ 32 - start = j + 2 ^ 32 := by omega
    rw [this]
    omega
  have htake : (request_frame s.buffer src_ip src_mac s.ip).take BUFFER_SIZE
      = request_frame (List.replicate BUFFER_SIZE 0) src_ip src_mac (start + j) := by
    rw [List.take_of_length_le (Nat.le_of_eq (request_frame_length s.buffer hb _ _ _)),
      request_frame_buffer s.buffer hb, hip]
  simp only [send_iter, iter_events, hsub, htake, hc]
  by_cases h1 : res j < 0 <;> by_cases h2 : j % BATCH_SIZE = 0 <;> simp [h1, h2]

theorem send_loop_run (src_ip : List Char) (src_mac : List Nat) (res : Nat → Int)
    (start e : Nat) (he : e + 1 < 2 ^ 32) :
    ∀ (m fuel : Nat) (s : SendState), s.ip + m = e + 1 → m ≤ fuel →
      send_loop src_ip src_mac res start e fuel s
        = some ((send_iter src_ip src_mac res start)^[m] s) := by
  intro m
  induction m with
  | zero =>
    intro fuel s hs _
    have hn : ¬ s.ip ≤ e := by omega
    cases fuel <;> simp [send_loop, hn]
  | succ m ih =>
    intro fuel s hs hf
    obtain ⟨f, rfl⟩ : ∃ f, fuel = f + 1 := ⟨fuel - 1, by omega⟩
    have hle : s.ip ≤ e := by omega
    simp only [send_loop, hle, if_true, Function.iterate_succ_apply]
    apply ih
    · rw [send_iter_ip]
      unfold add32
      rw [Nat.mod_eq_of_lt (by omega)]
      omega
    · omega

theorem send_iterate_trace (src_ip : List Char) (src_mac : List Nat) (res : Nat → Int)
    (start : Nat) :
    ∀ (m : Nat) (s : SendState) (j : Nat), s.ip = start + j → s.calls = j →
      s.buffer.length = BUFFER_SIZE → start + j + m < 2 ^ 32 →
      ((send_iter src_ip src_mac res start)^[m] s).trace
        = s.trace ++ (List.range m).flatMap
            (fun i => iter_events src_ip src_mac res start (j + i)) := by
  intro m
  induction m with
  | zero => intro s j _ _ _ _; simp
  | succ m ih =>
    intro s j hip hc hb hlt
    rw [Function.iterate_succ_apply,
      ih (send_iter src_ip src_mac res start s) (j + 1)
        (by rw [send_iter_ip, hip]; unfold add32; rw [Nat.mod_eq_of_lt (by omega)]; omega)
        (by rw [send_iter_calls, hc])
        (send_iter_buffer src_ip src_mac res start s hb)
        (by omega),
      send_iter_trace src_ip src_mac res start s j hip hc hb (by omega),
      List.range_succ_eq_map, List.flatMap_cons, List.flatMap_map, List.append_assoc]
    have hfun : (fun i => iter_events src_ip src_mac res start (j + 1 + i))
        = (fun i => iter_events src_ip src_mac res start (j + Nat.succ i)) := by
      funext i
      have : j + 1 + i = j + Nat.succ i := by omega
      rw [this]
    simp only [hfun, Nat.add_zero, Function.comp_def]

/-- With the end of the range below `0xFFFFFFFF` and enough fuel, the send loop
returns, and its trace is the events of the iterations `0, 1, ..., end - start`. -/
theorem send_loop_trace (src_ip : List Char) (src_mac : List Nat) (res : Nat → Int)
    (buffer : List Nat) (start e fuel : Nat) (hb : buffer.length = BUFFER_SIZE)
    (hse : start ≤ e) (he : e < 2 ^ 32 - 1) (hf : e - start + 1 ≤ fuel) :
    ∃ s, send_loop src_ip src_mac res start e fuel (send_init buffer start) = some s ∧
      s.trace = (List.range (e - start + 1)).flatMap
        (fun j => iter_events src_ip src_mac res start j) := by
  refine ⟨_, send_loop_run src_ip src_mac res start e (by omega) (e - start + 1) fuel
    (send_init buffer start) (by simp only [send_init]; omega) hf, ?_⟩
  rw [send_iterate_trace src_ip src_mac res start (e - start + 1) (send_init buffer start) 0
    rfl rfl hb (by omega)]
  simp [send_init]

theorem sendCount_append (a b : List Event) : sendCount (a ++ b) = sendCount a + sendCount b := by
  induction a with
  | nil => simp [sendCount]
  | cons x t ih => cases x <;> simp [sendCount, ih]; omega

theorem pauseCount_append (a b : List Event) :
    pauseCount (a ++ b) = pauseCount a + pauseCount b := by
  induction a with
  | nil => simp [pauseCount]
  | cons x t ih => cases x <;> simp [pauseCount, ih]; omega

theorem sendCount_iter_events (src_ip : List Char) (src_mac : List Nat) (res : Nat → Int)
    (start j : Nat) : sendCount (iter_events src_ip src_mac res start j) = 1 := by
  unfold iter_events
  by_cases h1 : res j < 0 <;> by_cases h2 : j % BATCH_SIZE = 0 <;> simp [h1, h2, sendCount]

theorem pauseCount_iter_events (src_ip : List Char) (src_mac : List Nat) (res : Nat → Int)
    (start j : Nat) :
    pauseCount (iter_events src_ip src_mac res start j) = if j % 256 = 0 then 1 else 0 := by
  unfold iter_events BATCH_SIZE
  by_cases h1 : res j < 0 <;> by_cases h2 : j % 256 = 0 <;> simp [h1, h2, pauseCount]

theorem sendCount_range (src_ip : List Char) (src_mac : List Nat) (res : Nat → Int)
    (start k : Nat) :
    sendCount ((List.range k).flatMap (fun j => iter_events src_ip src_mac res start j)) = k := by
  induction k with
  | zero => simp [sendCount]
  | succ k ih =>
    rw [List.range_succ, List.flatMap_append, sendCount_append, ih]
    simp [sendCount_iter_events]

theorem pauseCount_range (src_ip : List Char) (src_mac : List Nat) (res : Nat → Int)
    (start k : Nat) :
    pauseCount ((List.range k).flatMap (fun j => iter_events src_ip src_mac res start j))
      = (k + 255) / 256 := by
  induction k with
  | zero => simp [pauseCount]
  | succ k ih =>
    rw [List.range_succ, List.flatMap_append, pauseCount_append, ih]
    simp only [List.flatMap_cons, List.flatMap_nil, List.append_nil, pauseCount_iter_events]
    split <;> omega

/-- When `end_ip` is `0xFFFFFFFF` the condition `ip <= end_ip` holds for every
value of the 32-bit counter, so the loop is still running after any number of
iterations. -/
theorem send_loop_max (src_ip : List Char) (src_mac : List Nat) (res : Nat → Int)
    (start : Nat) : ∀ (fuel : Nat) (s : SendState), s.ip < 2 ^ 32 →
      send_loop src_ip src_mac res start 0xFFFFFFFF fuel s = none := by
  intro fuel
  induction fuel with
  | zero =>
    intro s hs
    have : s.ip ≤ 0xFFFFFFFF := by omega
    simp [send_loop, this]
  | succ f ih =>
    intro s hs
    have : s.ip ≤ 0xFFFFFFFF := by omega
    simp only [send_loop, this, if_true]
    apply ih
    rw [send_iter_ip]
    exact Nat.mod_lt _ (by decide)

/-! ## Lemmas on the reply loop -/

theorem waitCount_append (a b : List Event) : waitCount (a ++ b) = waitCount a + waitCount b := by
  induction a with
  | nil => simp [waitCount]
  | cons x t ih => cases x <;> simp [waitCount, ih]; omega

theorem recvCount_append (a b : List Event) : recvCount (a ++ b) = recvCount a + recvCount b := by
  induction a with
  | nil => simp [recvCount]
  | cons x t ih => cases x <;> simp [recvCount, ih]; omega

theorem handle_received_counts (len : Int) (buffer : List Nat) :
    waitCount (handle_received len buffer) = 0 ∧ recvCount (handle_received len buffer) = 0 := by
  unfold handle_received
  split
  · split <;> simp [waitCount, recvCount]
  · simp [waitCount, recvCount]

theorem recv_step_queue (s : RecvState) : (recv_step s).queue = s.queue.drop 1 := by
  unfold recv_step
  cases s.queue <;> rfl

theorem recv_step_counts (s : RecvState) :
    waitCount (recv_step s).trace = waitCount s.trace ∧
      recvCount (recv_step s).trace = recvCount s.trace + 1 := by
  unfold recv_step
  cases hq : s.queue with
  | nil =>
    obtain ⟨a, b⟩ := handle_received_counts (-1) s.buffer
    simp [waitCount_append, recvCount_append, waitCount, recvCount, a, b]
  | cons frame rest =>
    simp only [recv_frame, waitCount_append, recvCount_append, waitCount, recvCount,
      (handle_received_counts _ _).1, (handle_received_counts _ _).2]
    exact ⟨Nat.add_zero _, trivial⟩

theorem for_events_succ (ep : Nat → Bool) :
    ∀ (r i : Nat) (s : RecvState),
      for_events ep (r + 1) i s
        = (if ep (i + r) then recv_step (for_events ep r i s) else for_events ep r i s) := by
  intro r
  induction r with
  | zero => intro i s; simp [for_events]
  | succ r ih =>
    intro i s
    have e : i + (r + 1) = i + 1 + r := by omega
    rw [for_events, ih (i + 1), e]
    rfl

theorem for_events_counts (ep : Nat → Bool) (n : Nat) (s : RecvState) :
    (for_events ep n 0 s).queue = s.queue.drop (epollinCount ep n) ∧
      recvCount (for_events ep n 0 s).trace = recvCount s.trace + epollinCount ep n ∧
      waitCount (for_events ep n 0 s).trace = waitCount s.trace := by
  induction n with
  | zero => simp [for_events, epollinCount]
  | succ n ih =>
    obtain ⟨h1, h2, h3⟩ := ih
    rw [for_events_succ, Nat.zero_add]
    cases hep : ep n with
    | false => simp [epollinCount, hep, h1, h2, h3]
    | true =>
      simp only [if_true, epollinCount, hep]
      refine ⟨?_, ?_, ?_⟩
      · rw [recv_step_queue, h1, List.drop_drop, Nat.add_comm]
      · rw [(recv_step_counts _).2, h2]
        omega
      · rw [(recv_step_counts _).1, h3]

theorem reply_loop_positive (script : List Wait) :
    ∀ s : RecvState, (∀ x ∈ script, 0 < x.n) → reply_loop script s = none := by
  induction script with
  | nil => intro s _; rfl
  | cons w rest ih =>
    intro s h
    have hw : 0 < w.n := h w (List.mem_cons_self _ _)
    have h1 : ¬ w.n < 0 := by omega
    have h2 : ¬ w.n = 0 := by omega
    simp only [reply_loop, h1, h2, if_false]
    exact ih _ (fun x hx => h x (List.mem_cons_of_mem _ hx))

theorem reply_loop_stops (pre : List Wait) (w : Wait) (rest : List Wait) (hw : w.n ≤ 0) :
    ∀ s : RecvState, (∀ x ∈ pre, 0 < x.n) →
      ∃ s1 t, reply_loop (pre ++ w :: rest) s = some (s1, rest) ∧
        s1.trace = t ++ Event.epoll_wait w.n :: (if w.n < 0 then [Event.perror_wait] else []) ∧
        waitCount t = waitCount s.trace + pre.length := by
  induction pre with
  | nil =>
    intro s _
    by_cases h : w.n < 0
    · exact ⟨{ buffer := s.buffer, queue := s.queue ++ w.arrived,
               trace := s.trace ++ [Event.epoll_wait w.n] ++ [Event.perror_wait] },
        s.trace, by simp [reply_loop, h], by simp [h], by simp⟩
    · have h0 : w.n = 0 := by omega
      exact ⟨{ buffer := s.buffer, queue := s.queue ++ w.arrived,
               trace := s.trace ++ [Event.epoll_wait w.n] },
        s.trace, by simp [reply_loop, h0], by simp [h0], by simp⟩
  | cons p pre ih =>
    intro s h
    have hp : 0 < p.n := h p (List.mem_cons_self _ _)
    have h1 : ¬ p.n < 0 := by omega
    have h2 : ¬ p.n = 0 := by omega
    obtain ⟨s1, t, e1, e2, e3⟩ := ih
      (for_events p.epollin p.n.toNat 0
        { s with queue := s.queue ++ p.arrived, trace := s.trace ++ [Event.epoll_wait p.n] })
      (fun x hx => h x (List.mem_cons_of_mem _ hx))
    refine ⟨s1, t, ?_, e2, ?_⟩
    · simp only [List.cons_append, reply_loop, h1, h2, if_false]
      exact e1
    · rw [e3, (for_events_counts _ _ _).2.2, waitCount_append]
      simp [waitCount]
      omega

theorem recv_frame_buffer (old frame : List Nat) :
    (recv_frame old frame).1
      = frame.take BUFFER_SIZE ++ old.drop (frame.take BUFFER_SIZE).length := by
  simp [recv_frame, memcpy_whole]

theorem printCount_handle_received (len : Int) (buffer : List Nat) :
    printCount (handle_received len buffer)
      = if 0 < len ∧ buffer.getD 20 0 * 256 + buffer.getD 21 0 = 2 then 1 else 0 := by
  unfold handle_received decode_reply
  rw [arp_opcode_eq]
  unfold ARP_REPLY
  by_cases h1 : len > 0
  · by_cases h2 : buffer.getD 20 0 * 256 + buffer.getD 21 0 = 2
    · have h3 : 0 < len ∧ buffer.getD 20 0 * 256 + buffer.getD 21 0 = 2 := ⟨h1, h2⟩
      rw [if_pos h1, if_pos h2, if_pos h3]
      rfl
    · have h3 : ¬ (0 < len ∧ buffer.getD 20 0 * 256 + buffer.getD 21 0 = 2) := fun h => h2 h.2
      rw [if_pos h1, if_neg h2, if_neg h3]
      rfl
  · have h3 : ¬ (0 < len ∧ buffer.getD 20 0 * 256 + buffer.getD 21 0 = 2) := fun h => h1 h.1
    rw [if_neg h1, if_neg h3]
    rfl

/-! ## The address range (C1, C10) -/

/-- C1, as amended: for every 32-bit base address and every prefix length `n`
with `1 ≤ n ≤ 32`, `end_ip` lies inside the subnet (masking it with the
top-`n`-bits mask gives `net_addr`) and equals the all-ones host address
(`net_addr` with all low `32 - n` bits set); for `n ≤ 31`, moreover,
`start_ip ≤ end_ip` and `start_ip` lies inside the subnet. -/
theorem range_within_subnet (b n : Nat) (hb : b < 2 ^ 32) (h1 : 1 ≤ n) (h2 : n ≤ 32) :
    end_ip b n &&& topBitsMask n = net_addr b n ∧
    end_ip b n = net_addr b n ||| lowBitsMask n ∧
    (n ≤ 31 →
      start_ip b n ≤ end_ip b n ∧ start_ip b n &&& topBitsMask n = net_addr b n) := by
  refine ⟨?_, ?_, ?_⟩
  · unfold topBitsMask
    rw [and_topBitsMask _ _ (end_ip_lt b n hb h1 h2) (by omega), end_ip_eq b n hb h1 h2,
      net_addr_eq b n hb h1 h2]
    interval_cases n <;> omega
  · unfold end_ip
    rw [not32_netmask n h1 h2]
  · intro h31
    have hs : start_ip b n < 2 ^ 32 := by
      unfold start_ip add32
      exact Nat.mod_lt _ (by decide)
    refine ⟨?_, ?_⟩
    · rw [start_ip_eq b n hb h1 h31, end_ip_eq b n hb h1 h2]
      interval_cases n <;> omega
    · unfold topBitsMask
      rw [and_topBitsMask _ _ hs (by omega), start_ip_eq b n hb h1 h31,
        net_addr_eq b n hb h1 h2]
      interval_cases n <;> omega

/-- C1 at base address 10.0.0.5 and prefix length 24. -/
theorem range_within_subnet_witness :
    (0x0A000005 : Nat) < 2 ^ 32 ∧ 1 ≤ 24 ∧ 24 ≤ 32 ∧
    (end_ip 0x0A000005 24 &&& topBitsMask 24 = net_addr 0x0A000005 24 ∧
     end_ip 0x0A000005 24 = net_addr 0x0A000005 24 ||| lowBitsMask 24 ∧
     (24 ≤ 31 → start_ip 0x0A000005 24 ≤ end_ip 0x0A000005 24 ∧
       start_ip 0x0A000005 24 &&& topBitsMask 24 = net_addr 0x0A000005 24)) :=
  ⟨by decide, by decide, by decide,
    range_within_subnet 0x0A000005 24 (by decide) (by decide) (by decide)⟩

/-- C1 as stated fails at prefix length 32: for base address 192.168.1.1 the
computed `start_ip` is 192.168.1.2, above `end_ip` = 192.168.1.1 and outside
the one-address subnet. -/
theorem range_len32_start_outside :
    (0xC0A80101 : Nat) < 2 ^ 32 ∧ 1 ≤ 32 ∧ 32 ≤ 32 ∧
    start_ip 0xC0A80101 32 = 0xC0A80102 ∧ end_ip 0xC0A80101 32 = 0xC0A80101 ∧
    ¬ (start_ip 0xC0A80101 32 ≤ end_ip 0xC0A80101 32) ∧
    start_ip 0xC0A80101 32 &&& topBitsMask 32 ≠ net_addr 0xC0A80101 32 := by
  decide

/-- C10: for every 32-bit base address `b` and prefix length `1 ≤ n ≤ 32`,
`net_addr` is `b` AND the mask with the top `n` bits set (that is, `b` with its
low `32 - n` bits cleared), `start_ip` is `net_addr + 1` in 32-bit arithmetic,
and `end_ip` is `net_addr` OR the mask with the low `32 - n` bits set; for
192.168.1.1 and `n = 30` these are 192.168.1.0, 192.168.1.1 and 192.168.1.3,
and the send loop over that range returns after exactly 3 sends. -/
theorem range_formulas (b n : Nat) (hb : b < 2 ^ 32) (h1 : 1 ≤ n) (h2 : n ≤ 32) :
    net_addr b n = b &&& topBitsMask n ∧
    net_addr b n = b - b % 2 ^ (32 - n) ∧
    start_ip b n = (net_addr b n + 1) % 2 ^ 32 ∧
    end_ip b n = net_addr b n ||| lowBitsMask n ∧
    ip_to_int "192.168.1.1".toList = 0xC0A80101 ∧
    net_addr 0xC0A80101 30 = 0xC0A80100 ∧
    main_range "192.168.1.1".toList 30 = some (0xC0A80101, 0xC0A80103) ∧
    (∀ (src_mac : List Nat) (res : Nat → Int) (buffer : List Nat) (fuel : Nat),
      buffer.length = BUFFER_SIZE → 3 ≤ fuel →
      ∃ s, send_loop "192.168.1.1".toList src_mac res 0xC0A80101 0xC0A80103 fuel
            (send_init buffer 0xC0A80101) = some s ∧ sendCount s.trace = 3) := by
  refine ⟨?_, ?_, rfl, ?_, by decide, by decide, by decide, ?_⟩
  · unfold net_addr
    rw [netmask_eq n h1 h2]
  · rw [net_addr_eq b n hb h1 h2]
    interval_cases n <;> omega
  · unfold end_ip
    rw [not32_netmask n h1 h2]
  · intro src_mac res buffer fuel hbuf hf
    obtain ⟨s, hs, ht⟩ := send_loop_trace "192.168.1.1".toList src_mac res buffer
      0xC0A80101 0xC0A80103 fuel hbuf (by decide) (by decide) (by omega)
    exact ⟨s, hs, by rw [ht, sendCount_range]⟩

/-- C10 at base address 192.168.1.1 and prefix length 30. -/
theorem range_formulas_witness :
    (0xC0A80101 : Nat) < 2 ^ 32 ∧ 1 ≤ 30 ∧ 30 ≤ 32 ∧
    net_addr 0xC0A80101 30 = 0xC0A80101 &&& topBitsMask 30 ∧
    start_ip 0xC0A80101 30 = (net_addr 0xC0A80101 30 + 1) % 2 ^ 32 ∧
    end_ip 0xC0A80101 30 = net_addr 0xC0A80101 30 ||| lowBitsMask 30 :=
  have h := range_formulas 0xC0A80101 30 (by decide) (by decide) (by decide)
  ⟨by decide, by decide, by decide, h.1, h.2.2.1, h.2.2.2.1⟩

/-! ## The request frame and the decode step (C4, C5, C6, C3) -/

/-- C4: for every source address, source hardware address and target address,
the frame `scan_batch` builds (zeroed buffer, then `construct_arp_request` on the
dotted-decimal texts) is: six bytes FF, the source hardware address, 08 06,
hardware type 00 01, protocol type 08 00, lengths 6 and 4, opcode 00 01, the
source hardware address, the four big-endian bytes of the source address, six
zero bytes, the four big-endian bytes of the target address; 42 bytes in all. -/
theorem request_frame_layout (buffer : List Nat) (src tgt : Nat) (src_mac : List Nat)
    (hbuf : buffer.length = BUFFER_SIZE) (hmac : src_mac.length = 6)
    (hsrc : src < 2 ^ 32) (htgt : tgt < 2 ^ 32) :
    request_frame buffer (int_to_ip src) src_mac tgt =
      [0xFF, 0xFF, 0xFF, 0xFF, 0xFF, 0xFF] ++ src_mac ++ [0x08, 0x06] ++ [0x00, 0x01]
        ++ [0x08, 0x00] ++ [6] ++ [4] ++ [0x00, 0x01] ++ src_mac ++ htonl src
        ++ [0, 0, 0, 0, 0, 0] ++ htonl tgt ∧
    (request_frame buffer (int_to_ip src) src_mac tgt).length = 42 ∧
    ntohl (htonl src) = src ∧ ntohl (htonl tgt) = tgt := by
  refine ⟨?_, request_frame_length buffer hbuf _ _ _, ntohl_htonl src hsrc, ntohl_htonl tgt htgt⟩
  rw [request_frame_eq buffer src tgt src_mac hbuf hmac]
  rfl

/-- C4 for source 192.168.1.1, hardware address 02:00:00:00:00:01 and target
192.168.1.2. -/
theorem request_frame_layout_witness :
    (List.replicate 42 0).length = BUFFER_SIZE ∧ [2, 0, 0, 0, 0, 1].length = 6 ∧
    (0xC0A80101 : Nat) < 2 ^ 32 ∧ (0xC0A80102 : Nat) < 2 ^ 32 ∧
    request_frame (List.replicate 42 0) (int_to_ip 0xC0A80101) [2, 0, 0, 0, 0, 1] 0xC0A80102 =
      [0xFF, 0xFF, 0xFF, 0xFF, 0xFF, 0xFF] ++ [2, 0, 0, 0, 0, 1] ++ [0x08, 0x06] ++ [0x00, 0x01]
        ++ [0x08, 0x00] ++ [6] ++ [4] ++ [0x00, 0x01] ++ [2, 0, 0, 0, 0, 1] ++ htonl 0xC0A80101
        ++ [0, 0, 0, 0, 0, 0] ++ htonl 0xC0A80102 :=
  ⟨by decide, by decide, by decide, by decide,
    (request_frame_layout (List.replicate 42 0) 0xC0A80101 0xC0A80102 [2, 0, 0, 0, 0, 1]
      (by decide) (by decide) (by decide) (by decide)).1⟩

/-- C5: for every source address, source hardware address, target address and
hardware address `h`, the full-length reply formed from the encoded request by
setting the opcode to reply, the sender address to the target address and the
sender hardware address to `h` is decoded by the reply loop to exactly the pair
(target address, `h`), which is what it prints. -/
theorem reply_roundtrip (buffer old : List Nat) (src tgt : Nat) (src_mac h : List Nat)
    (hbuf : buffer.length = BUFFER_SIZE) (hmac : src_mac.length = 6) (hh : h.length = 6)
    (htgt : tgt < 2 ^ 32) :
    (reply_of_request (request_frame buffer (int_to_ip src) src_mac tgt) tgt h).length = 42 ∧
    decode_reply
        (recv_frame old (reply_of_request (request_frame buffer (int_to_ip src) src_mac tgt) tgt h)).1
      = some (htonl tgt, h) ∧
    (recv_frame old (reply_of_request (request_frame buffer (int_to_ip src) src_mac tgt) tgt h)).2
      = [Event.recvfrom 42,
         Event.print ("IP: ".toList ++ int_to_ip tgt ++ ", MAC: ".toList ++ print_mac h ++ ['\n'])] ∧
    ntohl (htonl tgt) = tgt := by
  rw [request_frame_eq buffer src tgt src_mac hbuf hmac]
  obtain ⟨a, b, c, d, e, f, rfl⟩ := list_length_six src_mac hmac
  obtain ⟨a1, b1, c1, d1, e1, f1, rfl⟩ := list_length_six h hh
  refine ⟨?_, ?_, ?_, ntohl_htonl tgt htgt⟩
  · simp [reply_of_request, memcpy, htonl, htons]
  · simp [reply_of_request, recv_frame, memcpy, htonl, htons, decode_reply, arp_opcode, ntohs,
      ARP_REPLY, ETHER_HDR_LEN, BUFFER_SIZE]
  · simp [reply_of_request, recv_frame, memcpy, htonl, htons, decode_reply, arp_opcode, ntohs,
      ARP_REPLY, ETHER_HDR_LEN, BUFFER_SIZE, handle_received, reply_line, int_to_ip]

/-- C5 for the request 192.168.1.1 -> 192.168.1.2 answered from 0a:0b:0c:0d:0e:ff. -/
theorem reply_roundtrip_witness :
    (List.replicate 42 0).length = BUFFER_SIZE ∧ [2, 0, 0, 0, 0, 1].length = 6 ∧
    [10, 11, 12, 13, 14, 255].length = 6 ∧ (0xC0A80102 : Nat) < 2 ^ 32 ∧
    decode_reply
        (recv_frame (List.replicate 42 7)
          (reply_of_request
            (request_frame (List.replicate 42 0) (int_to_ip 0xC0A80101) [2, 0, 0, 0, 0, 1]
              0xC0A80102)
            0xC0A80102 [10, 11, 12, 13, 14, 255])).1
      = some (htonl 0xC0A80102, [10, 11, 12, 13, 14, 255]) :=
  ⟨by decide, by decide, by decide, by decide,
    (reply_roundtrip (List.replicate 42 0) (List.replicate 42 7) 0xC0A80101 0xC0A80102
      [2, 0, 0, 0, 0, 1] [10, 11, 12, 13, 14, 255]
      (by decide) (by decide) (by decide) (by decide)).2.1⟩

/-- C6: for every full-length (42-byte) received frame whose big-endian opcode
(bytes 20-21) is not 2, whatever its other bytes and whatever the buffer held,
the decode step reports no pair: the only event is the `recvfrom` itself. -/
theorem non_reply_not_reported (old frame : List Nat) (hlen : frame.length = 42)
    (hop : frame.getD 20 0 * 256 + frame.getD 21 0 ≠ 2) :
    (recv_frame old frame).2 = [Event.recvfrom 42] ∧
    decode_reply (recv_frame old frame).1 = none := by
  have htake : frame.take BUFFER_SIZE = frame :=
    List.take_of_length_le (by rw [hlen]; decide)
  have hbuf : (recv_frame old frame).1 = frame ++ old.drop 42 := by
    rw [recv_frame_buffer, htake, hlen]
  have h20 : (frame ++ old.drop 42).getD 20 0 = frame.getD 20 0 :=
    List.getD_append _ _ _ _ (by omega)
  have h21 : (frame ++ old.drop 42).getD 21 0 = frame.getD 21 0 :=
    List.getD_append _ _ _ _ (by omega)
  have hnot : ¬ arp_opcode (frame ++ old.drop 42) = ARP_REPLY := by
    rw [arp_opcode_eq, h20, h21]
    exact hop
  have hdec : decode_reply (frame ++ old.drop 42) = none := by
    unfold decode_reply
    rw [if_neg hnot]
  refine ⟨?_, by rw [hbuf, hdec]⟩
  have h2 : (recv_frame old frame).2
      = Event.recvfrom (frame.take BUFFER_SIZE).length
          :: handle_received (frame.take BUFFER_SIZE).length (recv_frame old frame).1 := rfl
  rw [h2, hbuf, htake, hlen]
  simp [handle_received, hdec]

/-- C6 for the request frame 192.168.1.1 -> 192.168.1.2 itself (opcode 1, every
other field well-formed) read back from the socket. -/
theorem non_reply_not_reported_witness :
    (request_frame (List.replicate 42 0) (int_to_ip 0xC0A80101) [2, 0, 0, 0, 0, 1]
      0xC0A80102).length = 42 ∧
    (recv_frame (List.replicate 42 7)
      (request_frame (List.replicate 42 0) (int_to_ip 0xC0A80101) [2, 0, 0, 0, 0, 1]
        0xC0A80102)).2 = [Event.recvfrom 42] :=
  ⟨by decide,
    (non_reply_not_reported (List.replicate 42 7)
      (request_frame (List.replicate 42 0) (int_to_ip 0xC0A80101) [2, 0, 0, 0, 0, 1] 0xC0A80102)
      (by decide) (by decide)).1⟩

/-- C3, as amended: for every received frame shorter than 42 bytes, the buffer
after the read is the frame followed by what the buffer held from that offset
on, and no pair is reported exactly when the frame is empty or bytes 20-21 of
that buffer are not 00 02; a read that fails for lack of a pending frame
reports nothing. -/
theorem short_frame_report (old frame : List Nat) (hlen : frame.length < 42) :
    (recv_frame old frame).1 = frame ++ old.drop frame.length ∧
    (printCount (recv_frame old frame).2 = 0 ↔
      (frame.length = 0 ∨
        (frame ++ old.drop frame.length).getD 20 0 * 256
          + (frame ++ old.drop frame.length).getD 21 0 ≠ 2)) ∧
    (frame.length = 0 → (recv_frame old frame).2 = [Event.recvfrom 0]) ∧
    (∀ s : RecvState, s.queue = [] → (recv_step s).trace = s.trace ++ [Event.recvfrom (-1)]) := by
  have htake : frame.take BUFFER_SIZE = frame :=
    List.take_of_length_le (by unfold BUFFER_SIZE; omega)
  have hbuf : (recv_frame old frame).1 = frame ++ old.drop frame.length := by
    rw [recv_frame_buffer, htake]
  have h2 : (recv_frame old frame).2
      = Event.recvfrom (frame.take BUFFER_SIZE).length
          :: handle_received (frame.take BUFFER_SIZE).length (recv_frame old frame).1 := rfl
  refine ⟨hbuf, ?_, ?_, ?_⟩
  · rw [h2, hbuf, htake]
    simp only [printCount, printCount_handle_received]
    constructor
    · intro h
      by_cases h0 : frame.length = 0
      · exact Or.inl h0
      · right
        intro hop
        have hpos : (0 : Int) < (frame.length : Int) := by omega
        rw [if_pos ⟨hpos, hop⟩] at h
        exact absurd h (by decide)
    · intro h
      rw [if_neg]
      rintro ⟨hpos, hop⟩
      rcases h with h0 | hne
      · omega
      · exact hne hop
  · intro h0
    rw [h2, htake, h0]
    rfl
  · intro s hs
    unfold recv_step
    rw [hs]
    rfl

/-- C3 for a 22-byte frame with opcode 1 read into a buffer of sevens. -/
theorem short_frame_report_witness :
    [1, 1, 1, 1, 1, 1, 1, 1, 1, 1, 1, 1, 1, 1, 1, 1, 1, 1, 1, 1, 0, 1].length < 42 ∧
    (recv_frame (List.replicate 42 7)
        [1, 1, 1, 1, 1, 1, 1, 1, 1, 1, 1, 1, 1, 1, 1, 1, 1, 1, 1, 1, 0, 1]).1
      = [1, 1, 1, 1, 1, 1, 1, 1, 1, 1, 1, 1, 1, 1, 1, 1, 1, 1, 1, 1, 0, 1]
          ++ (List.replicate 42 7).drop
              [1, 1, 1, 1, 1, 1, 1, 1, 1, 1, 1, 1, 1, 1, 1, 1, 1, 1, 1, 1, 0, 1].length :=
  ⟨by decide,
    (short_frame_report (List.replicate 42 7)
      [1, 1, 1, 1, 1, 1, 1, 1, 1, 1, 1, 1, 1, 1, 1, 1, 1, 1, 1, 1, 0, 1] (by decide)).1⟩

/-- C3 as stated fails: after the request 192.168.1.1 -> 192.168.1.2 was built
in the buffer, a 22-byte frame whose bytes 20-21 are 00 02 makes the reply loop
print a pair, taken from the request still in the buffer (the scanner's own
addresses). -/
theorem short_frame_reported :
    [1, 1, 1, 1, 1, 1, 1, 1, 1, 1, 1, 1, 1, 1, 1, 1, 1, 1, 1, 1, 0, 2].length < 42 ∧
    (recv_frame
        (request_frame (List.replicate 42 0) (int_to_ip 0xC0A80101) [2, 0, 0, 0, 0, 1] 0xC0A80102)
        [1, 1, 1, 1, 1, 1, 1, 1, 1, 1, 1, 1, 1, 1, 1, 1, 1, 1, 1, 1, 0, 2]).2
      = [Event.recvfrom 22,
         Event.print "IP: 192.168.1.1, MAC: 02:00:00:00:00:01\n".toList] := by
  decide

/-! ## The send loop (C2, C7) -/

/-- C2 fails on the code: for 192.168.1.1 and prefix length 1 `main` computes the
range 128.0.0.1 to 255.255.255.255, and for that range, as for the
one-address range 255.255.255.255 to 255.255.255.255, the send loop is still
running after any number of iterations, whatever the sends return: with
`end_ip = 0xFFFFFFFF` the test `ip <= end_ip` never fails. -/
theorem send_loop_never_returns :
    main_range "192.168.1.1".toList 1 = some (0x80000001, 0xFFFFFFFF) ∧
    (0x80000001 : Nat) ≤ 0xFFFFFFFF ∧
    (∀ (src_ip : List Char) (src_mac : List Nat) (res : Nat → Int) (buffer : List Nat)
        (fuel : Nat),
      send_loop src_ip src_mac res 0x80000001 0xFFFFFFFF fuel (send_init buffer 0x80000001)
        = none) ∧
    (∀ (src_ip : List Char) (src_mac : List Nat) (res : Nat → Int) (buffer : List Nat)
        (fuel : Nat),
      send_loop src_ip src_mac res 0xFFFFFFFF 0xFFFFFFFF fuel (send_init buffer 0xFFFFFFFF)
        = none) := by
  refine ⟨by decide, by decide, ?_, ?_⟩
  · intro src_ip src_mac res buffer fuel
    exact send_loop_max src_ip src_mac res _ fuel _ (by simp [send_init])
  · intro src_ip src_mac res buffer fuel
    exact send_loop_max src_ip src_mac res _ fuel _ (by simp [send_init])

/-- C7, as amended: over a range of `k` addresses that ends below 0xFFFFFFFF the
send loop returns, whatever the sends return; its trace is, for each index
`j = 0, ..., k - 1` in order, the send to `start_ip + j`, the error message when
that send failed, and a 10 ms pause exactly when `j` is a multiple of 256 (so
after the first send, the 257th, the 513th, ...); there are `k` sends and
`ceil(k / 256)` pauses, and a range of fewer than 256 addresses has exactly
one pause. -/
theorem pause_positions (src_ip : List Char) (src_mac : List Nat) (res : Nat → Int)
    (buffer : List Nat) (start e fuel : Nat) (hb : buffer.length = BUFFER_SIZE)
    (hse : start ≤ e) (he : e < 2 ^ 32 - 1) (hf : e - start + 1 ≤ fuel) :
    ∃ s, send_loop src_ip src_mac res start e fuel (send_init buffer start) = some s ∧
      s.trace = (List.range (e - start + 1)).flatMap
        (fun j => iter_events src_ip src_mac res start j) ∧
      sendCount s.trace = e - start + 1 ∧
      pauseCount s.trace = (e - start + 1 + 255) / 256 ∧
      (e - start + 1 < 256 → pauseCount s.trace = 1) := by
  obtain ⟨s, hs, ht⟩ := send_loop_trace src_ip src_mac res buffer start e fuel hb hse he hf
  refine ⟨s, hs, ht, ?_, ?_, ?_⟩
  · rw [ht, sendCount_range]
  · rw [ht, pauseCount_range]
  · intro hk
    rw [ht, pauseCount_range]
    omega

/-- C7 for the range 10.0.0.1 to 10.0.0.3 with every send failing. -/
theorem pause_positions_witness :
    (List.replicate 42 0).length = BUFFER_SIZE ∧ (0x0A000001 : Nat) ≤ 0x0A000003 ∧
    (0x0A000003 : Nat) < 2 ^ 32 - 1 ∧ 0x0A000003 - 0x0A000001 + 1 ≤ 3 ∧
    ∃ s, send_loop "10.0.0.9".toList [2, 0, 0, 0, 0, 1] (fun _ => -1) 0x0A000001 0x0A000003 3
          (send_init (List.replicate 42 0) 0x0A000001) = some s ∧
      s.trace = (List.range (0x0A000003 - 0x0A000001 + 1)).flatMap
        (fun j => iter_events "10.0.0.9".toList [2, 0, 0, 0, 0, 1] (fun _ => -1) 0x0A000001 j) ∧
      sendCount s.trace = 0x0A000003 - 0x0A000001 + 1 ∧
      pauseCount s.trace = (0x0A000003 - 0x0A000001 + 1 + 255) / 256 ∧
      (0x0A000003 - 0x0A000001 + 1 < 256 → pauseCount s.trace = 1) :=
  ⟨by decide, by decide, by decide, by decide,
    pause_positions "10.0.0.9".toList [2, 0, 0, 0, 0, 1] (fun _ => -1) (List.replicate 42 0)
      0x0A000001 0x0A000003 3 (by decide) (by decide) (by decide) (by decide)⟩

/-- C7 as stated fails: a range of one address (10.0.0.1 to 10.0.0.1) is sent
with one pause, right after its first send, although 1 is no multiple of 256
and `floor(1 / 256) = 0`. -/
theorem pause_after_first_send :
    (send_loop "10.0.0.9".toList [2, 0, 0, 0, 0, 1] (fun _ => 42) 0x0A000001 0x0A000001 1
        (send_init (List.replicate 42 0) 0x0A000001)).map (fun s => s.trace)
      = some [Event.sendto
                (request_frame (List.replicate 42 0) "10.0.0.9".toList [2, 0, 0, 0, 0, 1]
                  0x0A000001) 42,
              Event.delay_ms 10] ∧
    (send_loop "10.0.0.9".toList [2, 0, 0, 0, 0, 1] (fun _ => 42) 0x0A000001 0x0A000001 1
        (send_init (List.replicate 42 0) 0x0A000001)).map (fun s => pauseCount s.trace)
      = some 1 ∧
    (0x0A000001 - 0x0A000001 + 1) / 256 = 0 := by
  decide

/-! ## The reply loop (C8, C9) -/

/-- C8 fails on the code: one pass of the `for` loop makes one `recvfrom` per
ready event with `EPOLLIN`, so it takes `min(m, c)` of the `m` pending frames,
`c` being the number of such events; with two frames pending and one ready
event the loop receives one frame, waits again, and leaves through the empty
wait with the second frame still in the queue. -/
theorem active_step_one_receive_per_event :
    (∀ (ep : Nat → Bool) (n : Nat) (s : RecvState),
      (for_events ep n 0 s).queue = s.queue.drop (epollinCount ep n) ∧
      recvCount (for_events ep n 0 s).trace = recvCount s.trace + epollinCount ep n) ∧
    (∀ (buffer f1 f2 : List Nat),
      ∃ s1, reply_loop [⟨[], 1, fun _ => true⟩, ⟨[], 0, fun _ => true⟩] ⟨buffer, [f1, f2], []⟩
          = some (s1, []) ∧
        s1.queue = [f2] ∧ recvCount s1.trace = 1 ∧ waitCount s1.trace = 2) := by
  refine ⟨fun ep n s => ⟨(for_events_counts ep n s).1, (for_events_counts ep n s).2.1⟩, ?_⟩
  intro buffer f1 f2
  refine ⟨_, rfl, rfl, ?_, ?_⟩
  · simp [for_events, recv_step, recv_frame, recvCount_append, recvCount,
      (handle_received_counts _ _).2]
  · simp [for_events, recv_step, recv_frame, waitCount_append, waitCount,
      (handle_received_counts _ _).1]

/-- C9: for every script of wait results made of waits with a positive count
followed by a wait `w` that returns zero or fails, the reply loop leaves at `w`:
the waits after `w` stay unused, the trace ends with the call of `w` (and the
error message when it failed), and exactly one wait per earlier entry precedes
it; after the positive waits alone the loop is still running; and with ten
empty waits available the loop makes one wait and leaves nine unused. -/
theorem reply_loop_single_window (pre : List Wait) (w : Wait) (rest : List Wait)
    (s : RecvState) (hpre : ∀ x ∈ pre, 0 < x.n) (hw : w.n ≤ 0) :
    (∃ s1 t, reply_loop (pre ++ w :: rest) s = some (s1, rest) ∧
      s1.trace = t ++ Event.epoll_wait w.n :: (if w.n < 0 then [Event.perror_wait] else []) ∧
      waitCount t = waitCount s.trace + pre.length) ∧
    reply_loop pre s = none ∧
    (∀ ep : Nat → Bool,
      reply_loop (List.replicate 10 ⟨[], 0, ep⟩) s
        = some ({ s with trace := s.trace ++ [Event.epoll_wait 0] },
                List.replicate 9 ⟨[], 0, ep⟩)) := by
  refine ⟨reply_loop_stops pre w rest hw s hpre, reply_loop_positive pre s hpre, ?_⟩
  intro ep
  show reply_loop (_ :: List.replicate 9 _) s = _
  simp [reply_loop]

/-- C9 for one wait with a ready event followed by three empty waits. -/
theorem reply_loop_single_window_witness :
    (∀ x ∈ [(⟨[], 1, fun _ => true⟩ : Wait)], 0 < x.n) ∧
    (⟨[], 0, fun _ => true⟩ : Wait).n ≤ 0 ∧
    reply_loop [(⟨[], 1, fun _ => true⟩ : Wait)] ⟨List.replicate 42 0, [], []⟩ = none :=
  have hpre : ∀ x ∈ [(⟨[], 1, fun _ => true⟩ : Wait)], 0 < x.n := by
    intro x hx
    rw [List.mem_singleton] at hx
    subst hx
    decide
  ⟨hpre, by decide,
    (reply_loop_single_window [⟨[], 1, fun _ => true⟩] ⟨[], 0, fun _ => true⟩
      [⟨[], 0, fun _ => true⟩, ⟨[], 0, fun _ => true⟩] ⟨List.replicate 42 0, [], []⟩
      hpre (by decide)).2.1⟩

end Arpscanf
